import Mathlib

/-!
Verification of the vsync synchronization primitive (`flutter::VsyncWaiter`,
declared in `src/shell/common/vsync_waiter.h`) and of
`flutter_runner::Engine::GetEngineReturnCode`
(`src/shell/platform/fuchsia/flutter/engine.cc`).

The repository ships only the header `vsync_waiter.h` for the waiter; the
member-function bodies (`vsync_waiter.cc`) are not part of the source tree.
The waiter's data model and operations below are therefore modelled from the
spec, faithful to its step-by-step description of `AsyncWaitForVsync`,
`ScheduleSecondaryCallback` and `FireCallback`.  The `Engine` part at the end
is embedded directly from `engine.cc`.

Timestamps (`fml::TimePoint`) are modelled as natural numbers; primary
callbacks are opaque values of a type `α`, secondary closures opaque values of
a type `β`.  A fire produces an observable trace of events (pause, primary
invocation with its timing pair, secondary invocations, resume), which is what
the spec's ordering and exactly-once statements are about.
-/

/-- Frame timestamps (`fml::TimePoint`), a monotonic clock value. -/
abbrev TimePoint := Nat

/-- One observable event during a `FireCallback`: the cooperative-queue pause,
a primary-callback invocation with its `(frame_start_time, frame_target_time)`
pair, a secondary-callback invocation, or the cooperative-queue resume. -/
inductive Event (α β : Type) where
  | pause : Event α β
  | primary (cb : α) (frame_start_time frame_target_time : TimePoint) : Event α β
  | secondary (cb : β) : Event α β
  | resume : Event α β
  deriving DecidableEq, Repr

/-- Modelled from the spec: the `VsyncWaiter` shared mutable state declared in
`vsync_waiter.h` (the `.cc` bodies are absent from the tree): `callback_` is
the single optional pending primary callback, `secondary_callbacks_` the keyed
map `std::unordered_map<uintptr_t, fml::closure>` of secondary callbacks,
modelled as an association list with unique keys. -/
structure VsyncWaiter (α β : Type) where
  callback_ : Option α
  secondary_callbacks_ : List (Nat × β)
  deriving DecidableEq, Repr

/-- The freshly constructed waiter: no pending primary callback, empty
secondary registry. -/
def VsyncWaiter.init {α β : Type} : VsyncWaiter α β :=
  { callback_ := none, secondary_callbacks_ := [] }

/-- Modelled from the spec: `VsyncWaiter::AsyncWaitForVsync` stores the
callback as the pending primary callback; a call while already armed silently
overwrites the previous pending callback (last-writer-wins). -/
def AsyncWaitForVsync {α β : Type} (cb : α) (w : VsyncWaiter α β) :
    VsyncWaiter α β :=
  { w with callback_ := some cb }

/-- Insert-or-replace on the association list modelling the unordered map:
a second registration under the same key replaces the prior entry in place,
a fresh key is appended. -/
def insertOrReplace {β : Type} (id : Nat) (cb : β) :
    List (Nat × β) → List (Nat × β)
  | [] => [(id, cb)]
  | (k, v) :: rest =>
      if k = id then (id, cb) :: rest else (k, v) :: insertOrReplace id cb rest

/-- Modelled from the spec: `VsyncWaiter::ScheduleSecondaryCallback` inserts or
replaces the entry for `id` in the secondary registry (last-write-wins). -/
def ScheduleSecondaryCallback {α β : Type} (id : Nat) (cb : β)
    (w : VsyncWaiter α β) : VsyncWaiter α β :=
  { w with secondary_callbacks_ := insertOrReplace id cb w.secondary_callbacks_ }

/-- The callback invocations due at one fire, in order: the pending primary
callback (if present) with the fire's timing pair, then every secondary
callback taken from the registry. -/
def dueCallbacks {α β : Type} (w : VsyncWaiter α β) (s t : TimePoint) :
    List (Event α β) :=
  (match w.callback_ with
   | some cb => [Event.primary cb s t]
   | none => []) ++
  w.secondary_callbacks_.map (fun p => Event.secondary p.2)

/-- Modelled from the spec: `VsyncWaiter::FireCallback`.  Step 1 takes and
clears the pending primary callback and swaps out the whole secondary map;
if `pause_secondary_tasks` is set the cooperative queue is paused before any
callback and resumed by a scoped release on every exit path; the primary
callback (if any) runs with `(s, t)`, then the taken secondary callbacks.
`abortAt` models a callback-body failure: `some k` aborts execution after `k`
callback invocations (an exception or abort inside the `k`-th callback); the
scoped release still emits the resume.  The result is the post-fire state and
the observable event trace. -/
def FireCallback {α β : Type} (w : VsyncWaiter α β) (s t : TimePoint)
    (pause_secondary_tasks : Bool) (abortAt : Option Nat) :
    VsyncWaiter α β × List (Event α β) :=
  let body := dueCallbacks w s t
  let executed := match abortAt with
    | none => body
    | some k => body.take k
  (VsyncWaiter.init,
   (if pause_secondary_tasks then [Event.pause] else []) ++ executed ++
   (if pause_secondary_tasks then [Event.resume] else []))

/-- Is this event a primary-callback invocation? -/
def Event.isPrimaryInvocation {α β : Type} : Event α β → Bool
  | .primary _ _ _ => true
  | _ => false

/-- Is this event a secondary-callback invocation? -/
def Event.isSecondaryInvocation {α β : Type} : Event α β → Bool
  | .secondary _ => true
  | _ => false

/-- The primary-callback invocations recorded in a trace, with their timing
pairs, in order. -/
def primaryEvents {α β : Type} (tr : List (Event α β)) :
    List (α × TimePoint × TimePoint) :=
  tr.filterMap fun e => match e with
    | .primary cb s t => some (cb, s, t)
    | _ => none

/-- The secondary-callback invocations recorded in a trace, in order. -/
def secondaryEvents {α β : Type} (tr : List (Event α β)) : List β :=
  tr.filterMap fun e => match e with
    | .secondary cb => some cb
    | _ => none

/-- The public operations of the waiter, used to describe reachable states. -/
inductive Op (α β : Type) where
  | asyncWait (cb : α) : Op α β
  | schedule (id : Nat) (cb : β) : Op α β
  | fire (s t : TimePoint) (pause : Bool) : Op α β

/-- Does this operation fire the waiter? -/
def Op.isFire {α β : Type} : Op α β → Bool
  | .fire _ _ _ => true
  | _ => false

/-- Apply one operation to the waiter state (fires complete normally). -/
def applyOp {α β : Type} (w : VsyncWaiter α β) : Op α β → VsyncWaiter α β
  | .asyncWait cb => AsyncWaitForVsync cb w
  | .schedule id cb => ScheduleSecondaryCallback id cb w
  | .fire s t p => (FireCallback w s t p none).1

/-- Run a sequence of operations from a starting state. -/
def runOps {α β : Type} (w : VsyncWaiter α β) (ops : List (Op α β)) :
    VsyncWaiter α β :=
  ops.foldl applyOp w

/-- The derived `armed` boolean of the spec: a pending primary callback is
present. -/
def armed {α β : Type} (w : VsyncWaiter α β) : Bool :=
  w.callback_.isSome

theorem primaryEvents_append {α β : Type} (l r : List (Event α β)) :
    primaryEvents (l ++ r) = primaryEvents l ++ primaryEvents r := by
  simp [primaryEvents, List.filterMap_append]

theorem secondaryEvents_append {α β : Type} (l r : List (Event α β)) :
    secondaryEvents (l ++ r) = secondaryEvents l ++ secondaryEvents r := by
  simp [secondaryEvents, List.filterMap_append]

theorem primaryEvents_map_secondary {α β : Type} (l : List (Nat × β)) :
    primaryEvents ((l.map fun p => Event.secondary p.2) : List (Event α β)) =
      ([] : List (α × TimePoint × TimePoint)) := by
  simp [primaryEvents, List.filterMap_map]

theorem secondaryEvents_map_secondary {α β : Type} (l : List (Nat × β)) :
    secondaryEvents ((l.map fun p => Event.secondary p.2) : List (Event α β)) =
      l.map Prod.snd := by
  induction l with
  | nil => rfl
  | cons hd tl ih => simpa [secondaryEvents, List.filterMap_cons] using ih

theorem secondaryEvents_cons_primary {α β : Type} (cb : α) (s t : TimePoint)
    (tr : List (Event α β)) :
    secondaryEvents (Event.primary cb s t :: tr) = secondaryEvents tr := by
  simp [secondaryEvents, List.filterMap_cons]

theorem secondaryEvents_nil {α β : Type} :
    secondaryEvents ([] : List (Event α β)) = [] := rfl

theorem secondaryEvents_cons_pause {α β : Type} (tr : List (Event α β)) :
    secondaryEvents (Event.pause :: tr) = secondaryEvents tr := by
  simp [secondaryEvents, List.filterMap_cons]

theorem secondaryEvents_cons_resume {α β : Type} (tr : List (Event α β)) :
    secondaryEvents (Event.resume :: tr) = secondaryEvents tr := by
  simp [secondaryEvents, List.filterMap_cons]

theorem secondaryEvents_pause_singleton {α β : Type} :
    secondaryEvents ([Event.pause] : List (Event α β)) = [] := rfl

theorem secondaryEvents_resume_singleton {α β : Type} :
    secondaryEvents ([Event.resume] : List (Event α β)) = [] := rfl

theorem secondaryEvents_dueCallbacks {α β : Type} (w : VsyncWaiter α β)
    (s t : TimePoint) :
    secondaryEvents (dueCallbacks w s t) = w.secondary_callbacks_.map Prod.snd := by
  cases hcb : w.callback_ with
  | none =>
      simp only [dueCallbacks, hcb, List.nil_append]
      exact secondaryEvents_map_secondary w.secondary_callbacks_
  | some cb =>
      simp only [dueCallbacks, hcb]
      rw [List.singleton_append, secondaryEvents_cons_primary,
        secondaryEvents_map_secondary]

theorem dueCallbacks_no_gate_events {α β : Type} (w : VsyncWaiter α β)
    (s t : TimePoint) :
    ∀ e ∈ dueCallbacks w s t, e ≠ Event.pause ∧ e ≠ Event.resume := by
  intro e he
  rcases List.mem_append.1 he with h | h
  · cases hcb : w.callback_ with
    | none => simp [hcb] at h
    | some cb =>
        simp [hcb] at h
        subst h
        exact ⟨by simp, by simp⟩
  · rcases List.mem_map.1 h with ⟨p, _, hp⟩
    subst hp
    exact ⟨by simp, by simp⟩

/-- Claim C1: after `AsyncWaitForVsync(cb)`, a single `FireCallback(s, t)`
invokes `cb` exactly once, and with exactly the pair `(s, t)` passed to
`FireCallback`: the primary-invocation events of the fire's trace are exactly
`[(cb, s, t)]`. -/
theorem asyncWait_then_fire_invokes_exactly_once {α β : Type}
    (w : VsyncWaiter α β) (cb : α) (s t : TimePoint) (p : Bool) :
    primaryEvents (FireCallback (AsyncWaitForVsync cb w) s t p none).2 =
      [(cb, s, t)] := by
  cases p <;>
    simp [FireCallback, AsyncWaitForVsync, dueCallbacks, primaryEvents_append,
      primaryEvents_map_secondary, primaryEvents]

/-- Claim C2: every fire with `pause_secondary_tasks = true` requests the
cooperative-queue pause exactly once before any callback and performs the
resume exactly once afterwards, on every exit path: even when execution aborts
inside a callback (any `abortAt`), the trace is `pause`, then a middle segment
containing no pause and no resume, then `resume`. -/
theorem fire_pause_resume_bracket {α β : Type} (w : VsyncWaiter α β)
    (s t : TimePoint) (abortAt : Option Nat) :
    ∃ mid, (FireCallback w s t true abortAt).2 =
        Event.pause :: (mid ++ [Event.resume]) ∧
      ∀ e ∈ mid, e ≠ Event.pause ∧ e ≠ Event.resume := by
  refine ⟨(match abortAt with
    | none => dueCallbacks w s t
    | some k => (dueCallbacks w s t).take k), ?_, ?_⟩
  · cases abortAt <;> simp [FireCallback]
  · intro e he
    have hb : e ∈ dueCallbacks w s t := by
      cases abortAt with
      | none => exact he
      | some k => exact List.take_subset _ _ he
    exact dueCallbacks_no_gate_events w s t e hb

/-- Witness for C2 at a concrete armed waiter whose primary callback aborts. -/
theorem fire_pause_resume_bracket_witness :
    ∃ mid, (FireCallback (⟨some 5, [(7, 8)]⟩ : VsyncWaiter Nat Nat)
        100 116 true (some 1)).2 = Event.pause :: (mid ++ [Event.resume]) ∧
      ∀ e ∈ mid, e ≠ Event.pause ∧ e ≠ Event.resume :=
  fire_pause_resume_bracket (⟨some 5, [(7, 8)]⟩ : VsyncWaiter Nat Nat)
    100 116 (some 1)

/-- Claim C8: a `FireCallback(s, t, pause_secondary_tasks = true)` issued when
no primary callback is pending and no secondary callbacks are registered
invokes no callbacks but still performs the pause and the resume. -/
theorem fire_on_idle_waiter_still_pauses_and_resumes {α β : Type}
    (s t : TimePoint) :
    FireCallback (VsyncWaiter.init : VsyncWaiter α β) s t true none =
        (VsyncWaiter.init, [Event.pause, Event.resume]) ∧
      primaryEvents
        (FireCallback (VsyncWaiter.init : VsyncWaiter α β) s t true none).2 =
          [] ∧
      secondaryEvents
        (FireCallback (VsyncWaiter.init : VsyncWaiter α β) s t true none).2 =
          [] :=
  ⟨rfl, rfl, rfl⟩

theorem insertOrReplace_fresh {β : Type} (id : Nat) (cb : β) :
    ∀ l : List (Nat × β), id ∉ l.map Prod.fst →
      insertOrReplace id cb l = l ++ [(id, cb)] := by
  intro l
  induction l with
  | nil => intro _; rfl
  | cons hd tl ih =>
      intro h
      cases hd with
      | mk k v =>
          simp only [List.map_cons, List.mem_cons, not_or] at h
          simp [insertOrReplace, Ne.symm h.1, ih h.2]

theorem foldl_schedule_eq {α β : Type} (regs : List (Nat × β))
    (w : VsyncWaiter α β) :
    regs.foldl (fun acc pr => ScheduleSecondaryCallback pr.1 pr.2 acc) w =
      ⟨w.callback_,
       regs.foldl (fun l pr => insertOrReplace pr.1 pr.2 l)
         w.secondary_callbacks_⟩ := by
  induction regs generalizing w with
  | nil => rfl
  | cons hd tl ih =>
      simp only [List.foldl_cons]
      rw [ih]
      rfl

theorem foldl_insertOrReplace_nodup {β : Type} (regs : List (Nat × β)) :
    ∀ acc : List (Nat × β), (regs.map Prod.fst).Nodup →
      (∀ k ∈ regs.map Prod.fst, k ∉ acc.map Prod.fst) →
      regs.foldl (fun l pr => insertOrReplace pr.1 pr.2 l) acc = acc ++ regs := by
  induction regs with
  | nil => intro acc _ _; simp
  | cons hd tl ih =>
      intro acc hnd hfresh
      have h1 : hd.1 ∉ acc.map Prod.fst := hfresh hd.1 (by simp)
      have hnd' : (tl.map Prod.fst).Nodup := by
        simp only [List.map_cons, List.nodup_cons] at hnd
        exact hnd.2
      have hnotin : hd.1 ∉ tl.map Prod.fst := by
        simp only [List.map_cons, List.nodup_cons] at hnd
        exact hnd.1
      have hfresh' : ∀ k ∈ tl.map Prod.fst,
          k ∉ (acc ++ [(hd.1, hd.2)]).map Prod.fst := by
        intro k hk
        simp only [List.map_append, List.mem_append, not_or, List.map_cons,
          List.map_nil, List.mem_singleton]
        refine ⟨hfresh k (by simp [hk]), ?_⟩
        intro he
        exact hnotin (he ▸ hk)
      rw [List.foldl_cons, insertOrReplace_fresh hd.1 hd.2 acc h1,
        ih (acc ++ [(hd.1, hd.2)]) hnd' hfresh']
      simp

/-- Claim C3: for secondary registrations with distinct ids made before a
`FireCallback` (whether or not a primary callback is also pending), every
registered closure is invoked exactly once at that fire — the trace's
secondary invocations are exactly the registered closures — and the secondary
registry is empty immediately after that fire. -/
theorem distinct_secondaries_fire_exactly_once {α β : Type}
    (regs : List (Nat × β)) (pcb : Option α) (s t : TimePoint) (p : Bool)
    (hnd : (regs.map Prod.fst).Nodup) :
    secondaryEvents (FireCallback
        (regs.foldl (fun acc pr => ScheduleSecondaryCallback pr.1 pr.2 acc)
          (⟨pcb, []⟩ : VsyncWaiter α β)) s t p none).2 = regs.map Prod.snd ∧
      (FireCallback
        (regs.foldl (fun acc pr => ScheduleSecondaryCallback pr.1 pr.2 acc)
          (⟨pcb, []⟩ : VsyncWaiter α β)) s t p none).1.secondary_callbacks_ =
        [] := by
  have hstate := foldl_schedule_eq regs (⟨pcb, []⟩ : VsyncWaiter α β)
  have hlist := foldl_insertOrReplace_nodup regs [] hnd (by simp)
  rw [hstate]
  simp only [hlist, List.nil_append]
  constructor
  · cases p <;>
      simp [FireCallback, secondaryEvents_append, secondaryEvents_dueCallbacks,
        secondaryEvents_pause_singleton, secondaryEvents_resume_singleton,
        secondaryEvents_cons_pause, secondaryEvents_cons_resume,
        secondaryEvents_nil]
  · simp [FireCallback, VsyncWaiter.init]

/-- Witness for C3: two secondary registrations with distinct ids 7 and 9
alongside a pending primary callback. -/
theorem distinct_secondaries_fire_exactly_once_witness :
    ((([(7, 0), (9, 1)] : List (Nat × Nat)).map Prod.fst).Nodup) ∧
    (secondaryEvents (FireCallback
        (([(7, 0), (9, 1)] : List (Nat × Nat)).foldl
          (fun acc pr => ScheduleSecondaryCallback pr.1 pr.2 acc)
          (⟨some 5, []⟩ : VsyncWaiter Nat Nat)) 100 116 true none).2 =
        ([(7, 0), (9, 1)] : List (Nat × Nat)).map Prod.snd ∧
      (FireCallback
        (([(7, 0), (9, 1)] : List (Nat × Nat)).foldl
          (fun acc pr => ScheduleSecondaryCallback pr.1 pr.2 acc)
          (⟨some 5, []⟩ : VsyncWaiter Nat Nat)) 100 116 true
        none).1.secondary_callbacks_ = []) :=
  ⟨by decide,
   distinct_secondaries_fire_exactly_once [(7, 0), (9, 1)] (some 5) 100 116
     true (by decide)⟩

/-- Claim C4: `AsyncWaitForVsync(a)` followed by `AsyncWaitForVsync(b)` before
any fire leaves the waiter in exactly the state of a single
`AsyncWaitForVsync(b)` call; at the next fire only `b` is invoked and the
dropped callback `a` is never invoked with any timing pair. -/
theorem rearm_overwrites_pending_callback {α β : Type} (w : VsyncWaiter α β)
    (a b : α) (s t : TimePoint) (p : Bool) (hab : a ≠ b) :
    AsyncWaitForVsync b (AsyncWaitForVsync a w) = AsyncWaitForVsync b w ∧
    primaryEvents (FireCallback (AsyncWaitForVsync b (AsyncWaitForVsync a w))
        s t p none).2 = [(b, s, t)] ∧
    ∀ u v : TimePoint, Event.primary a u v ∉
        (FireCallback (AsyncWaitForVsync b (AsyncWaitForVsync a w))
          s t p none).2 := by
  refine ⟨rfl, ?_, ?_⟩
  · cases p <;>
      simp [FireCallback, AsyncWaitForVsync, dueCallbacks, primaryEvents_append,
        primaryEvents_map_secondary, primaryEvents]
  · intro u v
    cases p <;>
      simp [FireCallback, AsyncWaitForVsync, dueCallbacks, hab]

/-- Witness for C4: two distinct callbacks 1 and 2 on a fresh waiter. -/
theorem rearm_overwrites_pending_callback_witness :
    (1 : Nat) ≠ 2 ∧
    (AsyncWaitForVsync 2 (AsyncWaitForVsync 1
          (VsyncWaiter.init : VsyncWaiter Nat Nat)) =
        AsyncWaitForVsync 2 (VsyncWaiter.init : VsyncWaiter Nat Nat) ∧
      primaryEvents (FireCallback (AsyncWaitForVsync 2 (AsyncWaitForVsync 1
          (VsyncWaiter.init : VsyncWaiter Nat Nat))) 100 116 true none).2 =
        [(2, 100, 116)] ∧
      ∀ u v : TimePoint, Event.primary 1 u v ∉
        (FireCallback (AsyncWaitForVsync 2 (AsyncWaitForVsync 1
          (VsyncWaiter.init : VsyncWaiter Nat Nat))) 100 116 true none).2) :=
  ⟨by decide,
   rearm_overwrites_pending_callback VsyncWaiter.init 1 2 100 116 true
     (by decide)⟩

theorem insertOrReplace_same_id {β : Type} (id : Nat) (f g : β) :
    ∀ l : List (Nat × β),
      insertOrReplace id g (insertOrReplace id f l) = insertOrReplace id g l := by
  intro l
  induction l with
  | nil => simp [insertOrReplace]
  | cons hd tl ih =>
      cases hd with
      | mk k v =>
          by_cases hk : k = id
          · subst hk
            simp [insertOrReplace]
          · simp [insertOrReplace, hk, ih]

/-- Claim C5: registering a secondary callback twice under the same id before
a fire is equivalent to registering only the second closure — the waiter
states are equal — so only `g` runs at that fire; the registry is drained by
the fire and a later fire with no fresh registration runs no secondary
callback. -/
theorem reschedule_same_id_last_write_wins {α β : Type} (w : VsyncWaiter α β)
    (id : Nat) (f g : β) (pcb : Option α) (s t u v : TimePoint) (p q : Bool) :
    ScheduleSecondaryCallback id g (ScheduleSecondaryCallback id f w) =
        ScheduleSecondaryCallback id g w ∧
    secondaryEvents (FireCallback (ScheduleSecondaryCallback id g
        (ScheduleSecondaryCallback id f (⟨pcb, []⟩ : VsyncWaiter α β)))
        s t p none).2 = [g] ∧
    (FireCallback (ScheduleSecondaryCallback id g (ScheduleSecondaryCallback
        id f (⟨pcb, []⟩ : VsyncWaiter α β)))
        s t p none).1.secondary_callbacks_ = [] ∧
    secondaryEvents (FireCallback (FireCallback (ScheduleSecondaryCallback id g
        (ScheduleSecondaryCallback id f (⟨pcb, []⟩ : VsyncWaiter α β)))
        s t p none).1 u v q none).2 = [] := by
  refine ⟨?_, ?_, ?_, ?_⟩
  · simp [ScheduleSecondaryCallback, insertOrReplace_same_id]
  · cases p <;>
      simp [ScheduleSecondaryCallback, insertOrReplace, FireCallback,
        secondaryEvents_append, secondaryEvents_dueCallbacks,
        secondaryEvents_pause_singleton, secondaryEvents_resume_singleton,
        secondaryEvents_cons_pause, secondaryEvents_cons_resume,
        secondaryEvents_nil]
  · simp [FireCallback, VsyncWaiter.init]
  · cases p <;> cases q <;>
      simp [FireCallback, VsyncWaiter.init, secondaryEvents_append,
        secondaryEvents_dueCallbacks, secondaryEvents_pause_singleton,
        secondaryEvents_resume_singleton, secondaryEvents_cons_pause,
        secondaryEvents_cons_resume, secondaryEvents_nil]

theorem armed_runOps_iff {α β : Type} (ops : List (Op α β)) :
    ∀ w : VsyncWaiter α β, armed (runOps w ops) = true ↔
      ((∃ pre cb post, ops = pre ++ Op.asyncWait cb :: post ∧
          ∀ op ∈ post, op.isFire = false) ∨
        (armed w = true ∧ ∀ op ∈ ops, op.isFire = false)) := by
  induction ops with
  | nil =>
      intro w
      constructor
      · intro h
        exact Or.inr ⟨h, fun op hop => absurd hop (List.not_mem_nil op)⟩
      · rintro (⟨pre, cb, post, habs, _⟩ | ⟨h, _⟩)
        · simp at habs
        · exact h
  | cons op rest ih =>
      intro w
      refine Iff.trans (ih (applyOp w op)) ?_
      cases op with
      | asyncWait cb =>
          constructor
          · rintro (⟨pre, cb', post, heq, hff⟩ | ⟨_, hff⟩)
            · exact Or.inl ⟨Op.asyncWait cb :: pre, cb', post, by rw [heq, List.cons_append], hff⟩
            · exact Or.inl ⟨[], cb, rest, rfl, hff⟩
          · rintro (⟨pre, cb', post, heq, hff⟩ | ⟨hw, hff⟩)
            · cases pre with
              | nil =>
                  simp only [List.nil_append, List.cons.injEq] at heq
                  obtain ⟨h1, h2⟩ := heq
                  subst h2
                  exact Or.inr ⟨by simp [applyOp, AsyncWaitForVsync, armed], hff⟩
              | cons q pre' =>
                  simp only [List.cons_append, List.cons.injEq] at heq
                  exact Or.inl ⟨pre', cb', post, heq.2, hff⟩
            · exact Or.inr ⟨by simp [applyOp, AsyncWaitForVsync, armed],
                fun o ho => hff o (List.mem_cons_of_mem _ ho)⟩
      | schedule id scb =>
          constructor
          · rintro (⟨pre, cb', post, heq, hff⟩ | ⟨hw, hff⟩)
            · exact Or.inl ⟨Op.schedule id scb :: pre, cb', post, by rw [heq, List.cons_append],
                hff⟩
            · refine Or.inr ⟨?_, ?_⟩
              · simpa [applyOp, ScheduleSecondaryCallback, armed] using hw
              · intro o ho
                rcases List.mem_cons.1 ho with h | h
                · subst h; rfl
                · exact hff o h
          · rintro (⟨pre, cb', post, heq, hff⟩ | ⟨hw, hff⟩)
            · cases pre with
              | nil => simp at heq
              | cons q pre' =>
                  simp only [List.cons_append, List.cons.injEq] at heq
                  exact Or.inl ⟨pre', cb', post, heq.2, hff⟩
            · exact Or.inr
                ⟨by simpa [applyOp, ScheduleSecondaryCallback, armed] using hw,
                 fun o ho => hff o (List.mem_cons_of_mem _ ho)⟩
      | fire s t pb =>
          constructor
          · rintro (⟨pre, cb', post, heq, hff⟩ | ⟨hw, _⟩)
            · exact Or.inl ⟨Op.fire s t pb :: pre, cb', post, by rw [heq, List.cons_append], hff⟩
            · simp [applyOp, FireCallback, armed, VsyncWaiter.init] at hw
          · rintro (⟨pre, cb', post, heq, hff⟩ | ⟨_, hff⟩)
            · cases pre with
              | nil => simp at heq
              | cons q pre' =>
                  simp only [List.cons_append, List.cons.injEq] at heq
                  exact Or.inl ⟨pre', cb', post, heq.2, hff⟩
            · have := hff (Op.fire s t pb) (List.mem_cons_self _ _)
              simp [Op.isFire] at this

/-- Claim C6: in every state reachable by a sequence of operations from the
fresh waiter, the waiter holds at most one pending primary callback (the
single optional `callback_` slot), `armed` holds exactly when that pending
primary callback is present, and the callback is present iff some
`AsyncWaitForVsync` was issued and no fire has happened since. -/
theorem armed_iff_pending_primary {α β : Type} (ops : List (Op α β)) :
    (armed (runOps (VsyncWaiter.init : VsyncWaiter α β) ops) = true ↔
      (runOps (VsyncWaiter.init : VsyncWaiter α β) ops).callback_.isSome =
        true) ∧
    (armed (runOps (VsyncWaiter.init : VsyncWaiter α β) ops) = true ↔
      ∃ pre cb post, ops = pre ++ Op.asyncWait cb :: post ∧
        ∀ op ∈ post, op.isFire = false) := by
  refine ⟨Iff.rfl, ?_⟩
  rw [armed_runOps_iff ops (VsyncWaiter.init : VsyncWaiter α β)]
  simp [armed, VsyncWaiter.init]

/-- Witness for C6 at the concrete operation sequence arm, fire, arm,
schedule: the waiter is armed and the decomposition exists. -/
theorem armed_iff_pending_primary_witness :
    (armed (runOps (VsyncWaiter.init : VsyncWaiter Nat Nat)
        [Op.asyncWait 1, Op.fire 100 116 true, Op.asyncWait 2,
         Op.schedule 7 3]) = true ↔
      (runOps (VsyncWaiter.init : VsyncWaiter Nat Nat)
        [Op.asyncWait 1, Op.fire 100 116 true, Op.asyncWait 2,
         Op.schedule 7 3]).callback_.isSome = true) ∧
    (armed (runOps (VsyncWaiter.init : VsyncWaiter Nat Nat)
        [Op.asyncWait 1, Op.fire 100 116 true, Op.asyncWait 2,
         Op.schedule 7 3]) = true ↔
      ∃ pre cb post,
        ([Op.asyncWait 1, Op.fire 100 116 true, Op.asyncWait 2,
          Op.schedule 7 3] : List (Op Nat Nat)) =
          pre ++ Op.asyncWait cb :: post ∧
        ∀ op ∈ post, op.isFire = false) :=
  armed_iff_pending_primary
    [Op.asyncWait 1, Op.fire 100 116 true, Op.asyncWait 2, Op.schedule 7 3]

/-- Claim C7: within one fire with `pause_secondary_tasks = true`, the trace
is the pause, then a block consisting only of primary-callback invocations
(the pending one, if any, with the fire's timing pair), then a block
consisting only of secondary-callback invocations (exactly the closures taken
from the registry at that fire), then the resume: the primary execution
happens before every secondary execution and the resume comes last. -/
theorem fire_event_ordering {α β : Type} (w : VsyncWaiter α β)
    (s t : TimePoint) :
    ∃ p q : List (Event α β),
      (FireCallback w s t true none).2 =
          Event.pause :: (p ++ q ++ [Event.resume]) ∧
      (∀ e ∈ p, e.isPrimaryInvocation = true) ∧
      (∀ e ∈ q, e.isSecondaryInvocation = true) ∧
      primaryEvents p = (match w.callback_ with
        | some cb => [(cb, s, t)]
        | none => []) ∧
      secondaryEvents q = w.secondary_callbacks_.map Prod.snd := by
  refine ⟨(match w.callback_ with
      | some cb => [Event.primary cb s t]
      | none => []),
    w.secondary_callbacks_.map fun pr => Event.secondary pr.2,
    ?_, ?_, ?_, ?_, ?_⟩
  · simp [FireCallback, dueCallbacks, List.append_assoc]
  · intro e he
    cases hcb : w.callback_ with
    | none => simp [hcb] at he
    | some cb =>
        simp [hcb] at he
        subst he
        rfl
  · intro e he
    rcases List.mem_map.1 he with ⟨pr, _, hpr⟩
    subst hpr
    rfl
  · cases hcb : w.callback_ <;> simp [hcb, primaryEvents]
  · exact secondaryEvents_map_secondary w.secondary_callbacks_

/-- Witness for C7 at the spec's concrete scenario: primary callback `A = 5`,
secondaries `{7 ↦ 8, 9 ↦ 6}`, fired with `(100, 116)`. -/
theorem fire_event_ordering_witness :
    ∃ p q : List (Event Nat Nat),
      (FireCallback (⟨some 5, [(7, 8), (9, 6)]⟩ : VsyncWaiter Nat Nat)
          100 116 true none).2 =
          Event.pause :: (p ++ q ++ [Event.resume]) ∧
      (∀ e ∈ p, e.isPrimaryInvocation = true) ∧
      (∀ e ∈ q, e.isSecondaryInvocation = true) ∧
      primaryEvents p =
        (match (⟨some 5, [(7, 8), (9, 6)]⟩ :
            VsyncWaiter Nat Nat).callback_ with
          | some cb => [(cb, 100, 116)]
          | none => []) ∧
      secondaryEvents q =
        (⟨some 5, [(7, 8), (9, 6)]⟩ :
          VsyncWaiter Nat Nat).secondary_callbacks_.map Prod.snd :=
  fire_event_ordering (⟨some 5, [(7, 8), (9, 6)]⟩ : VsyncWaiter Nat Nat)
    100 116

/-- Modelled from the spec: the platform backend holds only a weak,
non-owning reference to the waiter and resolves it before dispatching a fire;
`none` models a reference whose target waiter has been destroyed, and a fire
through a dead reference is a no-op that invokes nothing. -/
def FireViaBackend {α β : Type} (target : Option (VsyncWaiter α β))
    (s t : TimePoint) (p : Bool) :
    Option (VsyncWaiter α β) × List (Event α β) :=
  match target with
  | none => (none, [])
  | some w =>
      let r := FireCallback w s t p none
      (some r.1, r.2)

/-- Modelled from the spec: destruction of the waiter, the only cancellation
path; it invalidates the backend's weak reference. -/
def destroyWaiter {α β : Type} (_ : Option (VsyncWaiter α β)) :
    Option (VsyncWaiter α β) :=
  none

/-- Claim C9: destroying the waiter while a wait is armed never invokes the
stale pending primary callback: a backend fire arriving after destruction
resolves the weak reference to a dead target and is a safe no-op producing no
events, in particular no invocation of the armed callback `cb`. -/
theorem fire_after_destruction_is_noop {α β : Type} (w : VsyncWaiter α β)
    (cb : α) (s t : TimePoint) (p : Bool) :
    FireViaBackend (destroyWaiter (some (AsyncWaitForVsync cb w))) s t p =
        (none, []) ∧
    ∀ u v : TimePoint, Event.primary cb u v ∉
        (FireViaBackend (destroyWaiter (some (AsyncWaitForVsync cb w)))
          s t p).2 := by
  refine ⟨rfl, ?_⟩
  intro u v
  simp [FireViaBackend, destroyWaiter]

/-- Witness for C9: callback 5 armed on a fresh waiter, destroyed, fired. -/
theorem fire_after_destruction_is_noop_witness :
    FireViaBackend (destroyWaiter (some (AsyncWaitForVsync 5
        (VsyncWaiter.init : VsyncWaiter Nat Nat)))) 100 116 true =
        (none, []) ∧
    ∀ u v : TimePoint, Event.primary 5 u v ∉
        (FireViaBackend (destroyWaiter (some (AsyncWaitForVsync 5
          (VsyncWaiter.init : VsyncWaiter Nat Nat)))) 100 116 true).2 :=
  fire_after_destruction_is_noop VsyncWaiter.init 5 100 116 true

/-- The running engine object reached through the weak pointer
`shell_->GetEngine()` in `engine.cc`; its UI-isolate return-code query
`GetUIIsolateReturnCode` is opaque data here. -/
structure RunningEngine where
  GetUIIsolateReturnCode : Option Nat

/-- The `flutter::Shell` owned by `flutter_runner::Engine`; `GetEngine` is the
weak engine pointer captured by the task `GetEngineReturnCode` posts to the UI
task runner (`none` when the weak pointer is dead). -/
structure Shell where
  GetEngine : Option RunningEngine

/-- The `flutter_runner::Engine` state relevant to `GetEngineReturnCode`: the
`shell_` unique pointer, `none` when the shell was never created. -/
structure Engine where
  shell_ : Option Shell

/-- `Engine::Engine` from `engine.cc`: if `zx::event::create` for the vsync
event fails the constructor returns early and `shell_` is never assigned;
otherwise `shell_` receives the result of `flutter::Shell::Create`, which may
itself be null (the constructor then logs and returns early, leaving `shell_`
null). -/
def Engine.construct (vsyncEventCreated : Bool) (createdShell : Option Shell) :
    Engine :=
  if vsyncEventCreated then { shell_ := createdShell } else { shell_ := none }

/-- `Engine::GetEngineReturnCode` from `engine.cc`: returns `std::nullopt`
immediately when `shell_` is null; otherwise runs a task on the UI task
runner that, if the weak engine pointer is alive, stores
`engine->GetUIIsolateReturnCode()` into `code`, then returns `code`.  The
boolean records whether `GetUIIsolateReturnCode` was invoked on the UI
isolate. -/
def Engine.GetEngineReturnCode (e : Engine) : Option Nat × Bool :=
  match e.shell_ with
  | none => (none, false)
  | some sh =>
      match sh.GetEngine with
      | none => (none, false)
      | some eng => (eng.GetUIIsolateReturnCode, true)

/-- Claim C10: `Engine::GetEngineReturnCode` returns an empty optional
whenever the shell was never created — in particular after a constructor run
in which creating the vsync event failed — and the UI isolate is queried for
a return code only when a shell exists. -/
theorem getEngineReturnCode_none_without_shell :
    (∀ createdShell : Option Shell,
      (Engine.construct false createdShell).shell_ = none) ∧
    (∀ e : Engine, e.shell_ = none →
      e.GetEngineReturnCode = (none, false)) ∧
    (∀ e : Engine, e.GetEngineReturnCode.2 = true → e.shell_.isSome = true) := by
  refine ⟨fun _ => rfl, fun e he => ?_, fun e hq => ?_⟩
  · simp [Engine.GetEngineReturnCode, he]
  · cases hsh : e.shell_ with
    | none => simp [Engine.GetEngineReturnCode, hsh] at hq
    | some sh => simp [hsh]

/-- Witness for C10: an engine whose constructor failed to create the vsync
event has no shell and reports no return code without querying the isolate. -/
theorem getEngineReturnCode_none_without_shell_witness :
    (Engine.construct false none).shell_ = none ∧
    (Engine.construct false none).GetEngineReturnCode = (none, false) :=
  ⟨getEngineReturnCode_none_without_shell.1 none,
   getEngineReturnCode_none_without_shell.2.1 (Engine.construct false none)
     rfl⟩
